import Mathlib

/-!
Verification of the candidate-generation and adaptive-search core of the
email enrichment pipeline (`src/email_enrichment/pipeline.py`).

Strings are modelled as lists of characters (`List Char`), mirroring
Python's per-character string operations.  The search loop of
`EmailValidationPipeline._validate_leads` is modelled as a recursive
function over the candidate list, carrying exactly the mutable state of
the Python loop, plus two ghost fields (`delays`, `calls`) recording the
observable rate-limit sleeps and oracle invocations.
-/

namespace EmailEnrichment

/-- Python `str.lower` restricted to ASCII letters (per code point). -/
def pyLower (c : Char) : Char :=
  if 'A' ≤ c ∧ c ≤ 'Z' then Char.ofNat (c.toNat + 32) else c

/-- ASCII whitespace recognised by Python `str.strip`. -/
def isPySpace (c : Char) : Bool :=
  c = ' ' || c = '\t' || c = '\n' || c = '\x0d' || c = '\x0b' || c = '\x0c'

/-- Python `str.strip`: drop leading and trailing whitespace. -/
def pyStrip (s : List Char) : List Char :=
  ((s.dropWhile isPySpace).reverse.dropWhile isPySpace).reverse

/-- Order-preserving deduplication with an accumulator of seen elements,
mirroring the Python `seen` set / `unique` list idiom. -/
def dedupAux {α : Type} [DecidableEq α] (seen : List α) : List α → List α
  | [] => []
  | x :: xs => if x ∈ seen then dedupAux seen xs else x :: dedupAux (x :: seen) xs

/-- Order-preserving deduplication (first occurrence wins). -/
def dedup {α : Type} [DecidableEq α] (l : List α) : List α :=
  dedupAux [] l

/-- Combining acute accent U+0301 (category Mn). -/
def combAcute : Char := Char.ofNat 0x301

/-- Combining grave accent U+0300 (category Mn). -/
def combGrave : Char := Char.ofNat 0x300

/-- Combining tilde U+0303 (category Mn). -/
def combTilde : Char := Char.ofNat 0x303

/-- Combining circumflex U+0302 (category Mn). -/
def combCirc : Char := Char.ofNat 0x302

/-- Combining diaeresis U+0308 (category Mn). -/
def combDiaer : Char := Char.ofNat 0x308

/-- Combining cedilla U+0327 (category Mn). -/
def combCedilla : Char := Char.ofNat 0x327

/-- Canonical decomposition (`unicodedata.normalize("NFD", ·)`) for the
precomposed Latin letters handled by the pipeline's accent folding;
characters without a decomposition map to themselves. -/
def nfd (c : Char) : List Char :=
  if c = 'á' then ['a', combAcute] else
  if c = 'à' then ['a', combGrave] else
  if c = 'â' then ['a', combCirc] else
  if c = 'ä' then ['a', combDiaer] else
  if c = 'ã' then ['a', combTilde] else
  if c = 'é' then ['e', combAcute] else
  if c = 'è' then ['e', combGrave] else
  if c = 'ê' then ['e', combCirc] else
  if c = 'ë' then ['e', combDiaer] else
  if c = 'í' then ['i', combAcute] else
  if c = 'ì' then ['i', combGrave] else
  if c = 'î' then ['i', combCirc] else
  if c = 'ï' then ['i', combDiaer] else
  if c = 'ó' then ['o', combAcute] else
  if c = 'ò' then ['o', combGrave] else
  if c = 'ô' then ['o', combCirc] else
  if c = 'ö' then ['o', combDiaer] else
  if c = 'õ' then ['o', combTilde] else
  if c = 'ú' then ['u', combAcute] else
  if c = 'ù' then ['u', combGrave] else
  if c = 'û' then ['u', combCirc] else
  if c = 'ü' then ['u', combDiaer] else
  if c = 'ñ' then ['n', combTilde] else
  if c = 'ç' then ['c', combCedilla] else
  if c = 'Á' then ['A', combAcute] else
  if c = 'É' then ['E', combAcute] else
  if c = 'Í' then ['I', combAcute] else
  if c = 'Ó' then ['O', combAcute] else
  if c = 'Ú' then ['U', combAcute] else
  if c = 'Ñ' then ['N', combTilde] else
  if c = 'Ç' then ['C', combCedilla] else
  [c]

/-- `unicodedata.category(c) == "Mn"`: true on the Combining Diacritical
Marks block, which covers every mark produced by `nfd`. -/
def isMn (c : Char) : Bool :=
  0x300 ≤ c.toNat && c.toNat ≤ 0x36F

/-- Accent folding: NFD-decompose each character, then drop combining
marks (the two comprehensions in `generate_name_variants`). -/
def asciiFold (s : List Char) : List Char :=
  (s.flatMap nfd).filter (fun c => ¬ isMn c)

/-- `generate_name_variants` (pipeline.py lines 47-83): base pair,
hyphen-stripped first, first segment before the first hyphen, and — only
when a character above 0x7F occurs in `first + last` — the accent-folded
pair; deduplicated preserving first-seen order. -/
def generate_name_variants (first last : List Char) :
    List (List Char × List Char) :=
  let variants := [
    (first, last),
    (first.filter (fun c => c ≠ '-'), last),
    (first.takeWhile (fun c => c ≠ '-'), last)]
  let variants :=
    if (first ++ last).any (fun c => 127 < c.toNat) then
      variants ++ [(asciiFold first, asciiFold last)]
    else variants
  dedup variants

/-- `generate_email_patterns` (pipeline.py lines 86-126): lower-case and
trim `first`/`last`, return `[]` when `first`/`last` are empty after
trimming or `domain` is the empty string, otherwise the nine fixed
patterns, deduplicated in order and truncated to `maxCount`
(`MAX_PATTERNS_PER_LEAD`, default 20). -/
def generate_email_patterns (first_name last_name domain : List Char)
    (maxCount : Nat) : List (List Char) :=
  let first := pyStrip (first_name.map pyLower)
  let last := pyStrip (last_name.map pyLower)
  if first = [] ∨ last = [] ∨ domain = [] then []
  else
    let patterns := [
      first ++ '@' :: domain,
      first ++ '.' :: last ++ '@' :: domain,
      first ++ last ++ '@' :: domain,
      first.take 1 ++ '.' :: last ++ '@' :: domain,
      first.take 1 ++ last ++ '@' :: domain,
      first ++ '_' :: last ++ '@' :: domain,
      first ++ '-' :: last ++ '@' :: domain,
      first ++ '.' :: last.take 1 ++ '@' :: domain,
      last ++ '.' :: first ++ '@' :: domain]
    (dedup patterns).take maxCount

/-- The per-lead merge (`_validate_leads` lines 252-264): expand every
name variant into patterns, concatenate in variant order, then
deduplicate globally preserving first-seen order. -/
def all_patterns (first_name last_name domain : List Char)
    (maxCount : Nat) : List (List Char) :=
  dedup ((generate_name_variants first_name last_name).flatMap
    (fun v => generate_email_patterns v.1 v.2 domain maxCount))

/-- The `is_reachable` field returned by the Reacher oracle
(`"safe" | "risky" | "invalid" | "unknown"`). -/
inductive Reachability : Type
  | safe
  | risky
  | invalid
  | unknownR
deriving DecidableEq, Repr

/-- The normalized outcome of verifying one candidate: the fields of the
oracle response that the search loop reads (`is_reachable`,
`smtp.is_deliverable`, and the `error` string of a synthetic failure
result). -/
structure VerificationResult : Type where
  reachability : Reachability
  smtp_deliverable : Bool
  raw_error : Option (List Char)
deriving DecidableEq, Repr

/-- Outcome of one transport attempt against the Reacher API: a parsed
response body, or a `requests` exception. -/
inductive TransportOutcome : Type
  | ok (r : VerificationResult)
  | err (msg : List Char)

/-- `ReacherClient.validate_email` (pipeline.py lines 139-168): forward
the transport's parsed response, or degrade a transport exception into a
synthetic result with `is_reachable = "invalid"`, no deliverable SMTP
signal, and the error string recorded. -/
def validate_email {α : Type} (transport : α → TransportOutcome) (email : α) :
    VerificationResult :=
  match transport email with
  | .ok r => r
  | .err msg =>
      { reachability := .invalid, smtp_deliverable := false,
        raw_error := some msg }

/-- The mutable state of the per-lead validation loop
(`_validate_leads` lines 276-329), plus two ghost observables:
`delays` counts the executed `time.sleep` calls and `calls` records every
oracle invocation in order. -/
structure SearchState (α : Type) : Type where
  best_email : Option α
  best_status : Option Reachability
  best_result : Option VerificationResult
  patterns_tested : Nat
  patterns_validated : Nat
  delays : Nat
  calls : List α
deriving DecidableEq, Repr

/-- The loop state before the first iteration. -/
def initState {α : Type} : SearchState α :=
  ⟨none, none, none, 0, 0, 0, []⟩

/-- One-to-one translation of the `for pattern_idx, pattern in
enumerate(unique_patterns, 1)` loop body of `_validate_leads`
(lines 282-329).  `total` is `len(unique_patterns)`; `idx` is the 1-based
`pattern_idx` of the head of `l`. -/
def validateLoop {α : Type} (oracle : α → VerificationResult)
    (includeRisky : Bool) (total : Nat) :
    Nat → List α → SearchState α → SearchState α
  | _, [], s => s
  | idx, c :: rest, s =>
    let s1 : SearchState α :=
      { s with patterns_tested := idx, calls := s.calls ++ [c] }
    let r := oracle c
    let s2 : SearchState α :=
      if r.smtp_deliverable then
        { s1 with patterns_validated := s1.patterns_validated + 1 }
      else s1
    if r.reachability = .invalid ∨ r.smtp_deliverable = false then
      let s3 : SearchState α :=
        if idx < total then { s2 with delays := s2.delays + 1 } else s2
      validateLoop oracle includeRisky total (idx + 1) rest s3
    else if r.reachability = .safe then
      { s2 with best_email := some c, best_status := some .safe,
                best_result := some r }
    else
      let s3 : SearchState α :=
        if r.reachability = .risky ∧ s2.best_status ≠ some .safe then
          (if includeRisky then
            { s2 with best_email := some c,
                      best_status := some r.reachability,
                      best_result := some r }
          else s2)
        else s2
      let s4 : SearchState α :=
        if idx < total then { s3 with delays := s3.delays + 1 } else s3
      validateLoop oracle includeRisky total (idx + 1) rest s4

/-- Run the validation loop on a candidate list from the initial state. -/
def searchCandidates {α : Type} (oracle : α → VerificationResult)
    (includeRisky : Bool) (cands : List α) : SearchState α :=
  validateLoop oracle includeRisky cands.length 1 cands initState

/-- The `validation_status` column of the output record:
`best_status or "none_found"` (line 337). -/
def validation_status {α : Type} (s : SearchState α) : String :=
  match s.best_status with
  | none => "none_found"
  | some .safe => "safe"
  | some .risky => "risky"
  | some .invalid => "invalid"
  | some .unknownR => "unknown"

/-- The candidate the loop would report as best after scanning `l`,
holding `d`, when every hit overwrites: the last element satisfying `p`,
else `d`. -/
def lastHit {α : Type} (p : α → Bool) : List α → Option α → Option α
  | [], d => d
  | c :: rest, d => if p c then lastHit p rest (some c) else lastHit p rest d

/-- The invariant of C6 as a boolean check: the best-so-far fields are
either both unset, or hold a deliverable, non-invalid result whose
reachability (necessarily safe or risky) matches `best_status`. -/
def goodBest {α : Type} : SearchState α → Bool
  | ⟨_, none, none, _, _, _, _⟩ => true
  | ⟨_, some st, some r, _, _, _, _⟩ =>
      r.smtp_deliverable && decide (r.reachability ≠ .invalid) &&
        decide (st = r.reachability) &&
        (decide (st = Reachability.safe) || decide (st = .risky))
  | _ => false

/-- Test oracle: every candidate verifies as risky and deliverable. -/
def riskyOracle : Nat → VerificationResult :=
  fun _ => ⟨.risky, true, none⟩

/-- Test oracle for the `[A, B, C]` scenario with `A = 10` risky and the
rest safe, all deliverable. -/
def ex2Oracle : Nat → VerificationResult :=
  fun n => if n = 10 then ⟨.risky, true, none⟩ else ⟨.safe, true, none⟩

/-- Test transport that always fails with a fixed error message. -/
def errTransport : Nat → TransportOutcome :=
  fun _ => .err "connection timeout".toList

/-! ### Theorems about pattern and variant generation -/

/-- C3: for inputs whose `first`/`last` are non-empty after lower-casing
and trimming and whose `domain` is non-empty, `generate_email_patterns`
emits exactly the nine local-parts `first`, `first.last`, `firstlast`,
`first[0].last`, `first[0]last`, `first_last`, `first-last`,
`first.last[0]`, `last.first` in that fixed order, each as
`local@domain`, deduplicated preserving first-seen order and truncated to
`maxCount`; for john/smith/acme.com the list starts with
`john@`, `john.smith@`, `johnsmith@`, `j.smith@`. -/
theorem generate_email_patterns_priority_order
    (first_name last_name domain : List Char) (maxCount : Nat)
    (hf : pyStrip (first_name.map pyLower) ≠ [])
    (hl : pyStrip (last_name.map pyLower) ≠ [])
    (hd : domain ≠ []) :
    (generate_email_patterns first_name last_name domain maxCount =
      (dedup [
        pyStrip (first_name.map pyLower) ++ '@' :: domain,
        pyStrip (first_name.map pyLower) ++ '.' ::
          pyStrip (last_name.map pyLower) ++ '@' :: domain,
        pyStrip (first_name.map pyLower) ++
          pyStrip (last_name.map pyLower) ++ '@' :: domain,
        (pyStrip (first_name.map pyLower)).take 1 ++ '.' ::
          pyStrip (last_name.map pyLower) ++ '@' :: domain,
        (pyStrip (first_name.map pyLower)).take 1 ++
          pyStrip (last_name.map pyLower) ++ '@' :: domain,
        pyStrip (first_name.map pyLower) ++ '_' ::
          pyStrip (last_name.map pyLower) ++ '@' :: domain,
        pyStrip (first_name.map pyLower) ++ '-' ::
          pyStrip (last_name.map pyLower) ++ '@' :: domain,
        pyStrip (first_name.map pyLower) ++ '.' ::
          (pyStrip (last_name.map pyLower)).take 1 ++ '@' :: domain,
        pyStrip (last_name.map pyLower) ++ '.' ::
          pyStrip (first_name.map pyLower) ++ '@' :: domain]).take maxCount) ∧
    (generate_email_patterns "john".toList "smith".toList
        "acme.com".toList 20).take 4 =
      ["john@acme.com".toList, "john.smith@acme.com".toList,
       "johnsmith@acme.com".toList, "j.smith@acme.com".toList] := by
  constructor
  · have h : ¬ (pyStrip (first_name.map pyLower) = [] ∨
        pyStrip (last_name.map pyLower) = [] ∨ domain = []) := by
      push_neg
      exact ⟨hf, hl, hd⟩
    simp only [generate_email_patterns, if_neg h]
  · decide

/-- Witness for C3 at john/smith/acme.com. -/
theorem generate_email_patterns_priority_order_witness :
    pyStrip ("john".toList.map pyLower) ≠ [] ∧
    pyStrip ("smith".toList.map pyLower) ≠ [] ∧
    "acme.com".toList ≠ [] ∧
    (generate_email_patterns "john".toList "smith".toList
        "acme.com".toList 20).take 4 =
      ["john@acme.com".toList, "john.smith@acme.com".toList,
       "johnsmith@acme.com".toList, "j.smith@acme.com".toList] :=
  ⟨by decide, by decide, by decide,
    (generate_email_patterns_priority_order "john".toList "smith".toList
      "acme.com".toList 20 (by decide) (by decide) (by decide)).2⟩

/-- C4 counterexample: the spec says a domain that is empty after
trimming yields an empty pattern list, but the code never trims the
domain, so a whitespace-only domain produces a full pattern list. -/
theorem generate_email_patterns_whitespace_domain :
    generate_email_patterns "john".toList "smith".toList [' '] 20 ≠ [] := by
  decide

/-- C4 amended: the pattern list is empty exactly when `first` or `last`
is empty after lower-casing and trimming, or `domain` is the empty string
untrimmed (a whitespace-only domain counts as non-empty), for any
positive `maxCount`. -/
theorem generate_email_patterns_empty_iff
    (first_name last_name domain : List Char) (maxCount : Nat)
    (hm : 0 < maxCount) :
    generate_email_patterns first_name last_name domain maxCount = [] ↔
      (pyStrip (first_name.map pyLower) = [] ∨
       pyStrip (last_name.map pyLower) = [] ∨ domain = []) := by
  constructor
  · intro hempty
    by_contra h
    push_neg at h
    obtain ⟨hf, hl, hd⟩ := h
    have heq : generate_email_patterns first_name last_name domain maxCount =
        (dedup [
          pyStrip (first_name.map pyLower) ++ '@' :: domain,
          pyStrip (first_name.map pyLower) ++ '.' ::
            pyStrip (last_name.map pyLower) ++ '@' :: domain,
          pyStrip (first_name.map pyLower) ++
            pyStrip (last_name.map pyLower) ++ '@' :: domain,
          (pyStrip (first_name.map pyLower)).take 1 ++ '.' ::
            pyStrip (last_name.map pyLower) ++ '@' :: domain,
          (pyStrip (first_name.map pyLower)).take 1 ++
            pyStrip (last_name.map pyLower) ++ '@' :: domain,
          pyStrip (first_name.map pyLower) ++ '_' ::
            pyStrip (last_name.map pyLower) ++ '@' :: domain,
          pyStrip (first_name.map pyLower) ++ '-' ::
            pyStrip (last_name.map pyLower) ++ '@' :: domain,
          pyStrip (first_name.map pyLower) ++ '.' ::
            (pyStrip (last_name.map pyLower)).take 1 ++ '@' :: domain,
          pyStrip (last_name.map pyLower) ++ '.' ::
            pyStrip (first_name.map pyLower) ++ '@' :: domain]).take maxCount := by
      have hcond : ¬ (pyStrip (first_name.map pyLower) = [] ∨
          pyStrip (last_name.map pyLower) = [] ∨ domain = []) := by
        push_neg
        exact ⟨hf, hl, hd⟩
      simp only [generate_email_patterns, if_neg hcond]
    rw [heq] at hempty
    rw [dedup, dedupAux] at hempty
    simp only [List.not_mem_nil, if_neg] at hempty
    obtain ⟨m, rfl⟩ := Nat.exists_eq_succ_of_ne_zero (Nat.pos_iff_ne_zero.mp hm)
    simp [List.take_succ_cons] at hempty
  · intro h
    have : (pyStrip (first_name.map pyLower) = [] ∨
        pyStrip (last_name.map pyLower) = [] ∨ domain = []) := h
    simp only [generate_email_patterns, if_pos this]

/-- Witness for the amended C4 at maxCount 20. -/
theorem generate_email_patterns_empty_iff_witness :
    0 < 20 ∧
    (generate_email_patterns "john".toList "smith".toList [] 20 = [] ↔
      (pyStrip ("john".toList.map pyLower) = [] ∨
       pyStrip ("smith".toList.map pyLower) = [] ∨ ([] : List Char) = [])) :=
  ⟨by decide,
    generate_email_patterns_empty_iff "john".toList "smith".toList [] 20
      (by decide)⟩

/-- C5: name-variant generation returns the deduplicated (first-seen
order) list of the base pair, the hyphen-stripped pair, the
before-first-hyphen pair, and — exactly when `first ++ last` has a
character above 0x7F — the accent-folded pair; in particular
María/José yields the folded variant ("Maria", "Jose"). -/
theorem generate_name_variants_spec (first last : List Char) :
    (generate_name_variants first last =
      dedup ([(first, last),
              (first.filter (fun c => c ≠ '-'), last),
              (first.takeWhile (fun c => c ≠ '-'), last)] ++
        (if (first ++ last).any (fun c => 127 < c.toNat) then
          [(asciiFold first, asciiFold last)]
        else []))) ∧
    ("Maria".toList, "Jose".toList) ∈
      generate_name_variants "María".toList "José".toList := by
  constructor
  · simp only [generate_name_variants]
    split
    · rfl
    · simp
  · decide

/-- C10: the `MAX_PATTERNS_PER_LEAD` cap bounds each name variant's own
pattern list, but the per-lead merge across variants only deduplicates
without truncating: with the default cap 20, the lead
Jean-Pierre/Dupont/x.com produces three name variants and a merged
candidate list of 23 entries, strictly more than the cap. -/
theorem all_patterns_exceeds_cap :
    (∀ first_name last_name domain maxCount,
      (generate_email_patterns first_name last_name domain
        maxCount).length ≤ maxCount) ∧
    (generate_name_variants "Jean-Pierre".toList "Dupont".toList).length
      = 3 ∧
    (all_patterns "Jean-Pierre".toList "Dupont".toList "x.com".toList
      20).length = 23 ∧
    20 < (all_patterns "Jean-Pierre".toList "Dupont".toList "x.com".toList
      20).length := by
  refine ⟨?_, by decide, by decide, by decide⟩
  intro first_name last_name domain maxCount
  simp only [generate_email_patterns]
  split
  · simp
  · exact List.length_take_le maxCount _

/-! ### Step lemmas for the validation loop -/

/-- Rejected candidate (`status == "invalid" or not is_reachable_smtp`):
the loop counts it, sleeps unless it is the last candidate, and moves on
without touching the best-so-far fields. -/
lemma validateLoop_cons_reject {α : Type} (oracle : α → VerificationResult)
    (inc : Bool) (total idx : Nat) (c : α) (rest : List α)
    (s : SearchState α)
    (h : (oracle c).reachability = .invalid ∨
      (oracle c).smtp_deliverable = false) :
    validateLoop oracle inc total idx (c :: rest) s =
      validateLoop oracle inc total (idx + 1) rest
        ⟨s.best_email, s.best_status, s.best_result, idx,
         if (oracle c).smtp_deliverable then s.patterns_validated + 1
         else s.patterns_validated,
         if idx < total then s.delays + 1 else s.delays,
         s.calls ++ [c]⟩ := by
  simp only [validateLoop]
  rw [if_pos h]
  by_cases h1 : (oracle c).smtp_deliverable = true <;>
    by_cases h2 : idx < total <;>
      simp [h1, h2]

/-- Safe deliverable candidate: the loop records it and stops
immediately, with no trailing delay. -/
lemma validateLoop_cons_safe {α : Type} (oracle : α → VerificationResult)
    (inc : Bool) (total idx : Nat) (c : α) (rest : List α)
    (s : SearchState α)
    (hsafe : (oracle c).reachability = .safe)
    (hdel : (oracle c).smtp_deliverable = true) :
    validateLoop oracle inc total idx (c :: rest) s =
      ⟨some c, some .safe, some (oracle c), idx,
       s.patterns_validated + 1, s.delays, s.calls ++ [c]⟩ := by
  have h1 : ¬ ((oracle c).reachability = .invalid ∨
      (oracle c).smtp_deliverable = false) := by
    simp [hsafe, hdel]
  simp only [validateLoop]
  rw [if_neg h1, if_pos hsafe]
  simp [hdel]

/-- Risky deliverable candidate with `INCLUDE_RISKY` enabled and no safe
best held: the loop overwrites the best-so-far fields and continues. -/
lemma validateLoop_cons_store {α : Type} (oracle : α → VerificationResult)
    (total idx : Nat) (c : α) (rest : List α) (s : SearchState α)
    (hrisky : (oracle c).reachability = .risky)
    (hdel : (oracle c).smtp_deliverable = true)
    (hns : s.best_status ≠ some .safe) :
    validateLoop oracle true total idx (c :: rest) s =
      validateLoop oracle true total (idx + 1) rest
        ⟨some c, some .risky, some (oracle c), idx,
         s.patterns_validated + 1,
         if idx < total then s.delays + 1 else s.delays,
         s.calls ++ [c]⟩ := by
  have h1 : ¬ ((oracle c).reachability = .invalid ∨
      (oracle c).smtp_deliverable = false) := by
    simp [hrisky, hdel]
  have hnsafe : ¬ (oracle c).reachability = .safe := by
    simp [hrisky]
  simp only [validateLoop]
  rw [if_neg h1, if_neg hnsafe]
  by_cases h2 : idx < total <;> simp [hdel, hrisky, hns, h2]

/-- Deliverable, non-invalid, non-safe candidate that is not stored
(risky with `INCLUDE_RISKY` off or a safe best already held, or an
unknown status): the loop counts it and continues unchanged. -/
lemma validateLoop_cons_skip {α : Type} (oracle : α → VerificationResult)
    (inc : Bool) (total idx : Nat) (c : α) (rest : List α)
    (s : SearchState α)
    (hninv : (oracle c).reachability ≠ .invalid)
    (hnsafe : (oracle c).reachability ≠ .safe)
    (hdel : (oracle c).smtp_deliverable = true)
    (hno : ¬ ((oracle c).reachability = .risky ∧
      s.best_status ≠ some .safe ∧ inc = true)) :
    validateLoop oracle inc total idx (c :: rest) s =
      validateLoop oracle inc total (idx + 1) rest
        ⟨s.best_email, s.best_status, s.best_result, idx,
         s.patterns_validated + 1,
         if idx < total then s.delays + 1 else s.delays,
         s.calls ++ [c]⟩ := by
  have h1 : ¬ ((oracle c).reachability = .invalid ∨
      (oracle c).smtp_deliverable = false) := by
    simp [hninv, hdel]
  simp only [validateLoop]
  rw [if_neg h1, if_neg hnsafe]
  by_cases hr : (oracle c).reachability = .risky ∧ s.best_status ≠ some .safe
  · have hinc : inc = false := by
      rcases hr with ⟨hr1, hr2⟩
      cases hi : inc
      · rfl
      · exact absurd ⟨hr1, hr2, hi⟩ hno
    subst hinc
    by_cases h2 : idx < total <;> simp [hdel, h2, hr.1, hr.2]
  · by_cases h2 : idx < total <;> simp [hdel, h2, hr]

/-! ### Rate-limit delay discipline (C8) -/

/-- Over any suffix whose 1-based start index `idx` satisfies
`idx + length = total + 1`, the executed delays grow exactly with the
final `patterns_tested`: one delay per processed candidate except the
final one. -/
lemma validateLoop_delays_aux {α : Type} (oracle : α → VerificationResult)
    (inc : Bool) (total : Nat) (l : List α) :
    ∀ (idx : Nat) (s : SearchState α), idx + l.length = total + 1 → l ≠ [] →
      (validateLoop oracle inc total idx l s).delays + idx =
        s.delays + (validateLoop oracle inc total idx l s).patterns_tested := by
  induction l with
  | nil =>
    intro idx s _ hne
    exact absurd rfl hne
  | cons c rest ih =>
    intro idx s htot _
    have key : ∀ S : SearchState α,
        S.delays = (if idx < total then s.delays + 1 else s.delays) →
        S.patterns_tested = idx →
        (validateLoop oracle inc total (idx + 1) rest S).delays + idx =
          s.delays +
            (validateLoop oracle inc total (idx + 1) rest S).patterns_tested := by
      intro S hSd hSt
      cases rest with
      | nil =>
        have hidx : idx = total := by
          simp [List.length_cons] at htot
          omega
        simp only [validateLoop]
        rw [hSd, hSt]
        simp [hidx]
      | cons d ds =>
        have hlt : idx < total := by
          simp [List.length_cons] at htot
          omega
        have htot' : (idx + 1) + (d :: ds).length = total + 1 := by
          simp [List.length_cons] at htot ⊢
          omega
        have ih' := ih (idx + 1) S htot' (by simp)
        rw [hSd, if_pos hlt] at ih'
        omega
    by_cases hb : (oracle c).reachability = .invalid ∨
        (oracle c).smtp_deliverable = false
    · rw [validateLoop_cons_reject oracle inc total idx c rest s hb]
      exact key _ rfl rfl
    · have hdel : (oracle c).smtp_deliverable = true := by
        by_contra hfalse
        exact hb (Or.inr (by simpa using hfalse))
      have hninv : (oracle c).reachability ≠ .invalid := fun hx => hb (Or.inl hx)
      by_cases hs : (oracle c).reachability = .safe
      · rw [validateLoop_cons_safe oracle inc total idx c rest s hs hdel]
      · by_cases hst : (oracle c).reachability = .risky ∧
            s.best_status ≠ some .safe ∧ inc = true
        · obtain ⟨hr, hbs, hinc⟩ := hst
          subst hinc
          rw [validateLoop_cons_store oracle total idx c rest s hr hdel hbs]
          exact key _ rfl rfl
        · rw [validateLoop_cons_skip oracle inc total idx c rest s hninv hs
            hdel hst]
          exact key _ rfl rfl

/-- C8: on a non-empty candidate list the loop sleeps exactly
`patterns_tested - 1` times — after every processed candidate except the
last one, with no trailing delay on either exhaustion or a
safe-triggered early stop. -/
theorem search_delay_discipline {α : Type} (oracle : α → VerificationResult)
    (inc : Bool) (cands : List α) (h : cands ≠ []) :
    (searchCandidates oracle inc cands).delays + 1 =
      (searchCandidates oracle inc cands).patterns_tested ∧
    (searchCandidates oracle inc cands).delays =
      (searchCandidates oracle inc cands).patterns_tested - 1 := by
  have hx := validateLoop_delays_aux oracle inc cands.length cands 1 initState
    (by omega) h
  simp only [initState] at hx
  simp only [searchCandidates, initState]
  omega

/-- Witness for C8 on a three-candidate all-risky run. -/
theorem search_delay_discipline_witness :
    ([0, 1, 2] : List Nat) ≠ [] ∧
    (searchCandidates riskyOracle false [0, 1, 2]).delays + 1 =
      (searchCandidates riskyOracle false [0, 1, 2]).patterns_tested :=
  ⟨by decide, (search_delay_discipline riskyOracle false [0, 1, 2]
    (by decide)).1⟩

/-! ### All-risky searches (C9 and C1) -/

/-- With `INCLUDE_RISKY` off and every deliverable result risky, the loop
never touches the best-so-far fields and counts one hit per deliverable
candidate. -/
lemma validateLoop_no_store_aux {α : Type} (oracle : α → VerificationResult)
    (total : Nat) (l : List α) :
    ∀ (idx : Nat) (s : SearchState α),
      (∀ c ∈ l, (oracle c).smtp_deliverable = true →
        (oracle c).reachability = .risky) →
      (validateLoop oracle false total idx l s).best_email = s.best_email ∧
      (validateLoop oracle false total idx l s).best_status = s.best_status ∧
      (validateLoop oracle false total idx l s).patterns_validated =
        s.patterns_validated +
          (l.filter (fun c => (oracle c).smtp_deliverable)).length := by
  induction l with
  | nil =>
    intro idx s _
    simp [validateLoop]
  | cons c rest ih =>
    intro idx s h
    have hrest : ∀ x ∈ rest, (oracle x).smtp_deliverable = true →
        (oracle x).reachability = .risky :=
      fun x hx => h x (List.mem_cons_of_mem c hx)
    by_cases hdel : (oracle c).smtp_deliverable = true
    · have hrisky := h c (List.mem_cons_self c rest) hdel
      have hninv : (oracle c).reachability ≠ .invalid := by simp [hrisky]
      have hnsafe : (oracle c).reachability ≠ .safe := by simp [hrisky]
      have hno : ¬ ((oracle c).reachability = .risky ∧
          s.best_status ≠ some .safe ∧ false = true) := by simp
      rw [validateLoop_cons_skip oracle false total idx c rest s hninv hnsafe
        hdel hno]
      obtain ⟨ih1, ih2, ih3⟩ := ih (idx + 1) _ hrest
      refine ⟨ih1, ih2, ?_⟩
      rw [ih3]
      simp [List.filter_cons, hdel]
      omega
    · have hb : (oracle c).reachability = .invalid ∨
          (oracle c).smtp_deliverable = false :=
        Or.inr (by simpa using hdel)
      rw [validateLoop_cons_reject oracle false total idx c rest s hb]
      obtain ⟨ih1, ih2, ih3⟩ := ih (idx + 1) _ hrest
      refine ⟨ih1, ih2, ?_⟩
      rw [ih3]
      simp [List.filter_cons, hdel]

/-- C9: with `accept_risky` disabled, an all-risky candidate list (every
deliverable result risky) yields no best candidate, a reported status of
`none_found`, and a hit count equal to the number of deliverable risky
candidates. -/
theorem search_all_risky_none_found {α : Type}
    (oracle : α → VerificationResult) (cands : List α)
    (h : ∀ c ∈ cands, (oracle c).smtp_deliverable = true →
      (oracle c).reachability = .risky) :
    (searchCandidates oracle false cands).best_email = none ∧
    validation_status (searchCandidates oracle false cands) = "none_found" ∧
    (searchCandidates oracle false cands).patterns_validated =
      (cands.filter (fun c => (oracle c).smtp_deliverable &&
        decide ((oracle c).reachability = Reachability.risky))).length := by
  obtain ⟨h1, h2, h3⟩ :=
    validateLoop_no_store_aux oracle cands.length cands 1 initState h
  refine ⟨?_, ?_, ?_⟩
  · simpa [searchCandidates, initState] using h1
  · have hbs : (searchCandidates oracle false cands).best_status = none := by
      simpa [searchCandidates, initState] using h2
    simp [validation_status, hbs]
  · have hfil : cands.filter (fun c => (oracle c).smtp_deliverable &&
        decide ((oracle c).reachability = Reachability.risky)) =
        cands.filter (fun c => (oracle c).smtp_deliverable) := by
      apply List.filter_congr
      intro c hc
      by_cases hd : (oracle c).smtp_deliverable = true
      · simp [hd, h c hc hd]
      · simp only [Bool.not_eq_true] at hd
        simp [hd]
    rw [hfil]
    simpa [searchCandidates, initState] using h3

/-- Witness for C9 on a three-candidate all-risky run. -/
theorem search_all_risky_none_found_witness :
    (∀ c ∈ ([0, 1, 2] : List Nat), (riskyOracle c).smtp_deliverable = true →
      (riskyOracle c).reachability = .risky) ∧
    validation_status (searchCandidates riskyOracle false [0, 1, 2]) =
      "none_found" :=
  ⟨by decide, (search_all_risky_none_found riskyOracle [0, 1, 2]
    (by decide)).2.1⟩

/-- With `INCLUDE_RISKY` on, no safe best held, and every deliverable
result risky, the final best candidate is the last deliverable one (or
the inherited best when none is deliverable). -/
lemma validateLoop_lastHit_aux {α : Type} (oracle : α → VerificationResult)
    (total : Nat) (l : List α) :
    ∀ (idx : Nat) (s : SearchState α), s.best_status ≠ some .safe →
      (∀ c ∈ l, (oracle c).smtp_deliverable = true →
        (oracle c).reachability = .risky) →
      (validateLoop oracle true total idx l s).best_email =
        lastHit (fun c => (oracle c).smtp_deliverable) l s.best_email := by
  induction l with
  | nil =>
    intro idx s _ _
    simp [validateLoop, lastHit]
  | cons c rest ih =>
    intro idx s hns h
    have hrest : ∀ x ∈ rest, (oracle x).smtp_deliverable = true →
        (oracle x).reachability = .risky :=
      fun x hx => h x (List.mem_cons_of_mem c hx)
    by_cases hdel : (oracle c).smtp_deliverable = true
    · have hrisky := h c (List.mem_cons_self c rest) hdel
      rw [validateLoop_cons_store oracle total idx c rest s hrisky hdel hns]
      have ihx := ih (idx + 1)
        ⟨some c, some .risky, some (oracle c), idx,
         s.patterns_validated + 1,
         if idx < total then s.delays + 1 else s.delays,
         s.calls ++ [c]⟩ (by simp) hrest
      rw [ihx]
      simp [lastHit, hdel]
    · have hb : (oracle c).reachability = .invalid ∨
          (oracle c).smtp_deliverable = false :=
        Or.inr (by simpa using hdel)
      rw [validateLoop_cons_reject oracle true total idx c rest s hb]
      have ihx := ih (idx + 1)
        ⟨s.best_email, s.best_status, s.best_result, idx,
         if (oracle c).smtp_deliverable then s.patterns_validated + 1
         else s.patterns_validated,
         if idx < total then s.delays + 1 else s.delays,
         s.calls ++ [c]⟩ hns hrest
      rw [ihx]
      simp [lastHit, hdel]

/-- `lastHit` is the last element accepted by `p`, with default `d`. -/
lemma lastHit_eq_getLast {α : Type} (p : α → Bool) (l : List α) :
    ∀ d : Option α, lastHit p l d = ((l.filter p).getLast?).or d := by
  induction l with
  | nil =>
    intro d
    simp [lastHit]
  | cons c rest ih =>
    intro d
    by_cases h : p c = true
    · rw [lastHit, if_pos h, ih (some c)]
      simp only [List.filter_cons, h, if_pos]
      cases hrev : rest.filter p with
      | nil => simp [Option.or]
      | cons x xs =>
        rw [List.getLast?_cons_cons]
        have hsome : ((x :: xs).getLast?).isSome :=
          List.getLast?_isSome.mpr (by simp)
        obtain ⟨y, hy⟩ := Option.isSome_iff_exists.mp hsome
        rw [hy]
        simp [Option.or]
    · rw [lastHit, if_neg h, ih d]
      simp only [Bool.not_eq_true] at h
      simp [List.filter_cons, h]

/-- C1 counterexample: with `accept_risky` enabled and both candidates
risky and deliverable, the loop reports the second candidate, not the
first — a later risky candidate does overwrite the held risky best. -/
theorem risky_first_not_kept :
    (searchCandidates riskyOracle true [0, 1]).best_email = some 1 ∧
    (searchCandidates riskyOracle true [0, 1]).best_email ≠ some 0 := by
  decide

/-- C1 amended: with `accept_risky` enabled and every deliverable result
risky, each risky/deliverable candidate overwrites the held best, so the
reported best candidate is the LAST risky/deliverable one. -/
theorem search_all_risky_keeps_last {α : Type}
    (oracle : α → VerificationResult) (cands : List α)
    (h : ∀ c ∈ cands, (oracle c).smtp_deliverable = true →
      (oracle c).reachability = .risky) :
    (searchCandidates oracle true cands).best_email =
      (cands.filter (fun c => (oracle c).smtp_deliverable)).getLast? := by
  calc (searchCandidates oracle true cands).best_email
      = lastHit (fun c => (oracle c).smtp_deliverable) cands none :=
        validateLoop_lastHit_aux oracle cands.length cands 1 initState
          (by simp [initState]) h
    _ = ((cands.filter (fun c => (oracle c).smtp_deliverable)).getLast?).or
          none :=
        lastHit_eq_getLast _ cands none
    _ = (cands.filter (fun c => (oracle c).smtp_deliverable)).getLast? := by
        simp

/-- Witness for the amended C1 on a two-candidate all-risky run. -/
theorem search_all_risky_keeps_last_witness :
    (∀ c ∈ ([0, 1] : List Nat), (riskyOracle c).smtp_deliverable = true →
      (riskyOracle c).reachability = .risky) ∧
    (searchCandidates riskyOracle true [0, 1]).best_email =
      (([0, 1] : List Nat).filter
        (fun c => (riskyOracle c).smtp_deliverable)).getLast? :=
  ⟨by decide, search_all_risky_keeps_last riskyOracle [0, 1] (by decide)⟩

/-! ### Early stop at the first safe deliverable candidate (C2) -/

/-- If position `k` (0-based) holds the first safe/deliverable candidate
of the suffix `l`, the loop starting at 1-based index `idx` stops there:
it records that candidate, reports `idx + k` as `patterns_tested`, and
calls the oracle on exactly the first `k + 1` candidates. -/
lemma validateLoop_first_safe_aux {α : Type} (oracle : α → VerificationResult)
    (inc : Bool) (total : Nat) (l : List α) :
    ∀ (idx : Nat) (s : SearchState α) (k : Nat) (hk : k < l.length),
      (oracle (l.get ⟨k, hk⟩)).reachability = .safe →
      (oracle (l.get ⟨k, hk⟩)).smtp_deliverable = true →
      (∀ j (hj : j < k),
        ¬ ((oracle (l.get ⟨j, Nat.lt_trans hj hk⟩)).reachability = .safe ∧
          (oracle (l.get ⟨j, Nat.lt_trans hj hk⟩)).smtp_deliverable = true)) →
      (validateLoop oracle inc total idx l s).best_email =
        some (l.get ⟨k, hk⟩) ∧
      (validateLoop oracle inc total idx l s).patterns_tested = idx + k ∧
      (validateLoop oracle inc total idx l s).calls =
        s.calls ++ l.take (k + 1) := by
  induction l with
  | nil =>
    intro idx s k hk
    exact absurd hk (Nat.not_lt_zero k)
  | cons c rest ih =>
    intro idx s k hk hsafe hdel hbefore
    cases k with
    | zero =>
      have hsafec : (oracle c).reachability = .safe := hsafe
      have hdelc : (oracle c).smtp_deliverable = true := hdel
      rw [validateLoop_cons_safe oracle inc total idx c rest s hsafec hdelc]
      exact ⟨rfl, by simp, by simp⟩
    | succ k' =>
      have hk' : k' < rest.length := Nat.lt_of_succ_lt_succ hk
      have hsafer : (oracle (rest.get ⟨k', hk'⟩)).reachability = .safe :=
        hsafe
      have hdelr : (oracle (rest.get ⟨k', hk'⟩)).smtp_deliverable = true :=
        hdel
      have hne : ¬ ((oracle c).reachability = .safe ∧
          (oracle c).smtp_deliverable = true) := hbefore 0 (Nat.succ_pos k')
      have hbefore' : ∀ j (hj : j < k'),
          ¬ ((oracle (rest.get ⟨j, Nat.lt_trans hj hk'⟩)).reachability =
              .safe ∧
            (oracle (rest.get ⟨j, Nat.lt_trans hj hk'⟩)).smtp_deliverable =
              true) :=
        fun j hj => hbefore (j + 1) (Nat.succ_lt_succ hj)
      have hafter : ∀ S : SearchState α, S.calls = s.calls ++ [c] →
          (validateLoop oracle inc total (idx + 1) rest S).best_email =
            some (rest.get ⟨k', hk'⟩) ∧
          (validateLoop oracle inc total (idx + 1) rest S).patterns_tested =
            idx + (k' + 1) ∧
          (validateLoop oracle inc total (idx + 1) rest S).calls =
            s.calls ++ (c :: rest).take (k' + 2) := by
        intro S hSc
        obtain ⟨ih1, ih2, ih3⟩ :=
          ih (idx + 1) S k' hk' hsafer hdelr hbefore'
        refine ⟨ih1, by omega, ?_⟩
        rw [ih3, hSc, List.take_succ_cons]
        simp
      by_cases hb : (oracle c).reachability = .invalid ∨
          (oracle c).smtp_deliverable = false
      · rw [validateLoop_cons_reject oracle inc total idx c rest s hb]
        exact hafter _ rfl
      · have hdelc : (oracle c).smtp_deliverable = true := by
          by_contra hfalse
          exact hb (Or.inr (by simpa using hfalse))
        have hninv : (oracle c).reachability ≠ .invalid :=
          fun hx => hb (Or.inl hx)
        have hnsafec : (oracle c).reachability ≠ .safe :=
          fun hx => hne ⟨hx, hdelc⟩
        by_cases hst : (oracle c).reachability = .risky ∧
            s.best_status ≠ some .safe ∧ inc = true
        · obtain ⟨hr, hbs, hinc⟩ := hst
          subst hinc
          rw [validateLoop_cons_store oracle total idx c rest s hr hdelc hbs]
          exact hafter _ rfl
        · rw [validateLoop_cons_skip oracle inc total idx c rest s hninv
            hnsafec hdelc hst]
          exact hafter _ rfl

/-- C2: the loop stops at the first safe/deliverable candidate: it is
recorded as best, `patterns_tested` is its 1-based position, and the
oracle is called on exactly the candidates up to and including it — no
later candidate is ever passed to the oracle. -/
theorem search_stops_at_first_safe {α : Type}
    (oracle : α → VerificationResult) (inc : Bool) (cands : List α)
    (k : Nat) (hk : k < cands.length)
    (hsafe : (oracle (cands.get ⟨k, hk⟩)).reachability = .safe)
    (hdel : (oracle (cands.get ⟨k, hk⟩)).smtp_deliverable = true)
    (hbefore : ∀ j (hj : j < k),
      ¬ ((oracle (cands.get ⟨j, Nat.lt_trans hj hk⟩)).reachability = .safe ∧
        (oracle (cands.get ⟨j, Nat.lt_trans hj hk⟩)).smtp_deliverable =
          true)) :
    (searchCandidates oracle inc cands).best_email =
      some (cands.get ⟨k, hk⟩) ∧
    (searchCandidates oracle inc cands).patterns_tested = k + 1 ∧
    (searchCandidates oracle inc cands).calls = cands.take (k + 1) := by
  obtain ⟨h1, h2, h3⟩ := validateLoop_first_safe_aux oracle inc cands.length
    cands 1 initState k hk hsafe hdel hbefore
  simp only [searchCandidates]
  refine ⟨h1, by omega, ?_⟩
  rw [h3]
  simp [initState]

/-- Witness for C2: candidates `[10, 20, 30]` with 10 risky/deliverable
and the rest safe/deliverable; the loop reports 20 after two tests and
never calls the oracle on 30. -/
theorem search_stops_at_first_safe_witness :
    (searchCandidates ex2Oracle false [10, 20, 30]).best_email = some 20 ∧
    (searchCandidates ex2Oracle false [10, 20, 30]).patterns_tested = 2 ∧
    (searchCandidates ex2Oracle false [10, 20, 30]).calls = [10, 20] := by
  have hk : (1 : Nat) < ([10, 20, 30] : List Nat).length := by decide
  have hbefore : ∀ j (hj : j < 1),
      ¬ ((ex2Oracle (([10, 20, 30] : List Nat).get
          ⟨j, Nat.lt_trans hj hk⟩)).reachability = .safe ∧
        (ex2Oracle (([10, 20, 30] : List Nat).get
          ⟨j, Nat.lt_trans hj hk⟩)).smtp_deliverable = true) := by
    intro j hj
    have hj0 : j = 0 := Nat.lt_one_iff.mp hj
    subst hj0
    show ¬ ((ex2Oracle 10).reachability = .safe ∧
      (ex2Oracle 10).smtp_deliverable = true)
    decide
  have hsafe : (ex2Oracle (([10, 20, 30] : List Nat).get
      ⟨1, hk⟩)).reachability = .safe := by
    show (ex2Oracle 20).reachability = .safe
    decide
  have hdel : (ex2Oracle (([10, 20, 30] : List Nat).get
      ⟨1, hk⟩)).smtp_deliverable = true := by
    show (ex2Oracle 20).smtp_deliverable = true
    decide
  exact search_stops_at_first_safe ex2Oracle false [10, 20, 30] 1 hk
    hsafe hdel hbefore

/-! ### Best-candidate invariant (C6) -/

/-- `goodBest` depends only on the best-so-far fields. -/
lemma goodBest_congr {α : Type} (s t : SearchState α)
    (h1 : s.best_status = t.best_status)
    (h2 : s.best_result = t.best_result) :
    goodBest s = goodBest t := by
  obtain ⟨e, bs, br, a, b, c, d⟩ := s
  obtain ⟨e', bs', br', a', b', c', d'⟩ := t
  have h1' : bs = bs' := h1
  have h2' : br = br' := h2
  subst h1'
  subst h2'
  cases bs <;> cases br <;> rfl

/-- The loop preserves `goodBest`: the best-so-far fields are only ever
overwritten with a deliverable, non-invalid (safe or risky) result. -/
lemma validateLoop_goodBest {α : Type} (oracle : α → VerificationResult)
    (inc : Bool) (total : Nat) (l : List α) :
    ∀ (idx : Nat) (s : SearchState α), goodBest s = true →
      goodBest (validateLoop oracle inc total idx l s) = true := by
  induction l with
  | nil =>
    intro idx s hgood
    simpa [validateLoop] using hgood
  | cons c rest ih =>
    intro idx s hgood
    by_cases hb : (oracle c).reachability = .invalid ∨
        (oracle c).smtp_deliverable = false
    · rw [validateLoop_cons_reject oracle inc total idx c rest s hb]
      refine ih (idx + 1) _ ?_
      exact (goodBest_congr
        (⟨s.best_email, s.best_status, s.best_result, idx,
          if (oracle c).smtp_deliverable then s.patterns_validated + 1
          else s.patterns_validated,
          if idx < total then s.delays + 1 else s.delays,
          s.calls ++ [c]⟩ : SearchState α) s rfl rfl).trans hgood
    · have hdel : (oracle c).smtp_deliverable = true := by
        by_contra hfalse
        exact hb (Or.inr (by simpa using hfalse))
      have hninv : (oracle c).reachability ≠ .invalid :=
        fun hx => hb (Or.inl hx)
      by_cases hs : (oracle c).reachability = .safe
      · rw [validateLoop_cons_safe oracle inc total idx c rest s hs hdel]
        simp [goodBest, hs, hdel]
      · by_cases hst : (oracle c).reachability = .risky ∧
            s.best_status ≠ some .safe ∧ inc = true
        · obtain ⟨hr, hbs, hinc⟩ := hst
          subst hinc
          rw [validateLoop_cons_store oracle total idx c rest s hr hdel hbs]
          refine ih (idx + 1) _ ?_
          simp [goodBest, hr, hdel]
        · rw [validateLoop_cons_skip oracle inc total idx c rest s hninv hs
            hdel hst]
          refine ih (idx + 1) _ ?_
          exact (goodBest_congr
            (⟨s.best_email, s.best_status, s.best_result, idx,
              s.patterns_validated + 1,
              if idx < total then s.delays + 1 else s.delays,
              s.calls ++ [c]⟩ : SearchState α) s rfl rfl).trans hgood

/-- A state satisfying `goodBest` reports one of the three statuses. -/
lemma goodBest_status {α : Type} (s : SearchState α)
    (h : goodBest s = true) :
    validation_status s = "none_found" ∨ validation_status s = "safe" ∨
      validation_status s = "risky" := by
  obtain ⟨e, bs, br, a, b, c, d⟩ := s
  cases bs with
  | none =>
    cases br with
    | none => exact Or.inl rfl
    | some r => simp [goodBest] at h
  | some st =>
    cases br with
    | none => simp [goodBest] at h
    | some r =>
      cases st with
      | safe => exact Or.inr (Or.inl rfl)
      | risky => exact Or.inr (Or.inr rfl)
      | invalid => simp [goodBest] at h
      | unknownR => simp [goodBest] at h

/-- C6: across every run the best-so-far fields only ever hold a
deliverable result whose reachability is not invalid (the `goodBest`
invariant is preserved through the whole loop), and consequently the
reported `validation_status` of a lead is always `none_found`, `safe` or
`risky` — never `invalid`. -/
theorem search_best_invariant :
    (∀ (oracle : Nat → VerificationResult) (inc : Bool) (total idx : Nat)
      (l : List Nat) (s : SearchState Nat),
      goodBest s = true →
        goodBest (validateLoop oracle inc total idx l s) = true) ∧
    (∀ (oracle : Nat → VerificationResult) (inc : Bool) (cands : List Nat),
      validation_status (searchCandidates oracle inc cands) = "none_found" ∨
      validation_status (searchCandidates oracle inc cands) = "safe" ∨
      validation_status (searchCandidates oracle inc cands) = "risky") := by
  constructor
  · intro oracle inc total idx l s h
    exact validateLoop_goodBest oracle inc total l idx s h
  · intro oracle inc cands
    exact goodBest_status _
      (validateLoop_goodBest oracle inc cands.length cands 1 initState rfl)

/-- Witness for C6 on a concrete all-risky run. -/
theorem search_best_invariant_witness :
    goodBest (initState : SearchState Nat) = true ∧
    goodBest (validateLoop riskyOracle true 2 1 [0, 1] initState) = true :=
  ⟨by decide,
    search_best_invariant.1 riskyOracle true 2 1 [0, 1] initState (by decide)⟩

/-! ### Transport failures degrade to rejected candidates (C7) -/

/-- C7: a transport-level failure makes `validate_email` return a
synthetic structured result — reachability invalid, no SMTP deliverable
signal, error recorded — instead of raising; the loop then treats the
candidate as an ordinary rejection: it is counted in `patterns_tested`
but not in `patterns_validated`, the best-so-far fields are untouched,
the rate-limit rule applies as usual, and the loop continues with the
remaining candidates rather than aborting. -/
theorem validate_email_transport_failure :
    (∀ (transport : Nat → TransportOutcome) (c : Nat) (msg : List Char),
      transport c = .err msg →
      validate_email transport c =
        ⟨.invalid, false, some msg⟩) ∧
    (∀ (transport : Nat → TransportOutcome) (inc : Bool) (total idx c : Nat)
      (rest : List Nat) (s : SearchState Nat) (msg : List Char),
      transport c = .err msg →
      validateLoop (validate_email transport) inc total idx (c :: rest) s =
        validateLoop (validate_email transport) inc total (idx + 1) rest
          ⟨s.best_email, s.best_status, s.best_result, idx,
           s.patterns_validated,
           if idx < total then s.delays + 1 else s.delays,
           s.calls ++ [c]⟩) := by
  constructor
  · intro transport c msg h
    simp [validate_email, h]
  · intro transport inc total idx c rest s msg h
    have hres : validate_email transport c = ⟨.invalid, false, some msg⟩ := by
      simp [validate_email, h]
    rw [validateLoop_cons_reject (validate_email transport) inc total idx c
      rest s (Or.inl (by rw [hres]))]
    rw [hres]
    simp

/-- Witness for C7 with an always-failing transport. -/
theorem validate_email_transport_failure_witness :
    errTransport 0 = TransportOutcome.err "connection timeout".toList ∧
    validate_email errTransport 0 =
      ⟨.invalid, false, some "connection timeout".toList⟩ ∧
    validateLoop (validate_email errTransport) false 2 1 [0, 1] initState =
      validateLoop (validate_email errTransport) false 2 2 [1]
        ⟨none, none, none, 1, 0, 1, [0]⟩ :=
  ⟨rfl,
    (validate_email_transport_failure).1 errTransport 0
      "connection timeout".toList rfl,
    (validate_email_transport_failure).2 errTransport false 2 1 0 [1]
      initState "connection timeout".toList rfl⟩

end EmailEnrichment
